import Mathlib

/-!
Shallow embedding of `pkg/project/create.go` from the `ion` repository.

The Go function `Create(templateName, home string) error` scaffolds a project
in the current directory by running the step pipeline of a named preset.
We embed it as a pure Lean function over an explicit world:

* the disk is an association list from path to file content (`Fs`);
* external collaborators (the embedded template store `platform.Templates`,
  the npm registry HTTP endpoint, `encoding/json`, `tailscale/hujson`,
  `regexp`, `text/template`) are fields of an environment record `Env`,
  since they are libraries or out-of-scope services, not code of this file;
* fallible syscalls (`os.Create`, `WriteString`/`os.WriteFile`, `os.OpenFile`)
  get fault-injection flags in `Env` so error paths are expressible;
* an event trace records, in program order, the start of each step, each
  registry fetch, each direct file write performed by a step, each config
  flush write, and each ignore-file flush write.

Strings are modelled through their character lists (`String.data`); all the
strings involved are ASCII, so Go's byte-based operations coincide with
character-based ones.
-/

set_option autoImplicit false

namespace Ion

/-- Association-list lookup, modelling both Go map indexing and reading a
file from the modelled disk. Returns the first binding of the key. -/
def lookupA {α : Type} : List (String × α) → String → Option α
  | [], _ => none
  | (k, v) :: rest, key => if k = key then some v else lookupA rest key

/-- Association-list update: overwrite the first binding of the key in place,
or append a new binding if the key is absent. Models Go map assignment and
writing a file to the modelled disk. -/
def setAssoc {α : Type} : List (String × α) → String → α → List (String × α)
  | [], key, v => [(key, v)]
  | (k, w) :: rest, key, v =>
    if k = key then (k, v) :: rest else (k, w) :: setAssoc rest key v

/-- The modelled disk: path ↦ file content. -/
abbrev Fs := List (String × String)

/-- Does `pat` occur as a contiguous run inside `s`?  Models Go
`strings.Contains` (which is true for the empty pattern). -/
def listContains : List Char → List Char → Bool
  | [], pat => pat.isEmpty
  | c :: rest, pat => pat.isPrefixOf (c :: rest) || listContains rest pat

/-- Go `strings.Contains s pat`. -/
def strContains (s pat : String) : Bool :=
  listContains s.data pat.data

/-- Number of positions of `s` at which `pat` matches (occurrences may
overlap; on the concrete inputs of this file no two occurrences overlap). -/
def countOcc : List Char → List Char → Nat
  | [], pat => if pat.isEmpty then 1 else 0
  | c :: rest, pat => (if pat.isPrefixOf (c :: rest) then 1 else 0) + countOcc rest pat

/-- Go `strings.HasSuffix s "\n"`: the content ends with a newline. -/
def endsNl (s : String) : Bool :=
  s.data.getLast? = some '\n'

/-- Go `s != ""` as a Bool on the character list. -/
def strNonEmpty (s : String) : Bool :=
  !s.data.isEmpty

/-- Character-count length (equals Go's byte length on the ASCII strings
used here). -/
def strLen (s : String) : Nat :=
  s.data.length

/-- Drop the first `n` characters (Go slicing `s[n:]` on ASCII). -/
def strDropN (s : String) (n : Nat) : String :=
  ⟨s.data.drop n⟩

/-- Is `p` a leading run of `s`?  Models Go `strings.HasPrefix`. -/
def strStartsWith (s p : String) : Bool :=
  p.data.isPrefixOf s.data

/-- `filepath.Base`, restricted to the slash-separated paths that occur
here: the last `/`-separated component. -/
def baseName (s : String) : String :=
  ⟨(s.data.splitOn '/').getLastD []⟩

/-- `strings.ToLower` (character-wise). -/
def strToLower (s : String) : String :=
  ⟨s.data.map Char.toLower⟩

/-- Error outcome of a Go `os.Stat` call in the model: an existing path
yields no error, a missing path yields the not-exist error.  The `exist`
error is the distinct error value `fs.ErrExist` that some *other* syscalls
(`O_CREATE|O_EXCL` open, `Mkdir`) can produce; `Stat` itself never returns
it, which is exactly what the copy-step guard gets wrong. -/
inductive FsErr where
  | notExist
  | exist
  deriving DecidableEq, Repr

/-- `os.Stat` on the modelled disk: `none` = success (nil error). -/
def statErr (fs : Fs) (path : String) : Option FsErr :=
  match lookupA fs path with
  | some _ => none
  | none => some FsErr.notExist

/-- Go `os.IsExist err`: true only for the `fs.ErrExist` error value.
`os.IsExist nil` is false. -/
def osIsExist : Option FsErr → Bool
  | some FsErr.exist => true
  | _ => false

/-- The payload structs of `create.go` (lines 26-48). -/
structure NpmStep where
  package : String
  version : String
  file : String
  dev : Bool
  deriving DecidableEq, Repr

structure PatchStep where
  file : String
  patch : String
  regex : List (String × String)
  deriving DecidableEq, Repr

structure GitignoreStep where
  name : String
  path : String
  deriving DecidableEq, Repr

/-- A step's `properties` field is a `json.RawMessage` in Go: an untyped
blob, decoded lazily by the executor the `type` tag selects.  We model the
blob as either a well-shaped payload of one of the four known shapes, or
`rawP`, a blob that *no* struct decode accepts (malformed JSON).  Go's
`json.Unmarshal` into a struct is lenient about missing fields, so decoding
a blob of the wrong shape succeeds with zero values; only `rawP` fails. -/
inductive Props where
  | npmP (p : NpmStep)
  | patchP (p : PatchStep)
  | gitignoreP (p : GitignoreStep)
  | copyP
  | rawP
  deriving DecidableEq, Repr

/-- `step` (create.go lines 21-24): a type tag plus the raw payload. -/
structure Step where
  type : String
  properties : Props
  deriving DecidableEq, Repr

/-- `json.Unmarshal(step.Properties, &npmStep)`. -/
def decodeNpm : Props → Option NpmStep
  | Props.npmP p => some p
  | Props.rawP => none
  | _ => some ⟨"", "", "", false⟩

/-- `json.Unmarshal(step.Properties, &patchStep)`. -/
def decodePatch : Props → Option PatchStep
  | Props.patchP p => some p
  | Props.rawP => none
  | _ => some ⟨"", "", []⟩

/-- `json.Unmarshal(step.Properties, &gitignoreStep)`. -/
def decodeGitignore : Props → Option GitignoreStep
  | Props.gitignoreP p => some p
  | Props.rawP => none
  | _ => some ⟨"", ""⟩

/-- A JSON value stored in a `gokvpairs.KeyValuePairs[interface{}]` entry.
For the dependency-registration claims only one shape matters: a JSON
object mapping package names to version strings (what the Go code
type-asserts to `map[string]interface{}`).  Every other value is `other`;
the type assertion panics on it. -/
inductive JVal where
  | obj (entries : List (String × String))
  | other
  deriving DecidableEq, Repr

/-- `gokvpairs.KeyValuePairs[interface{}]`: a JSON object as an ordered
association list, preserving first-seen key order. -/
abbrev KVDoc := List (String × JVal)

/-- The Go errors `Create` can return, by source. -/
inductive Err where
  | configExists                 -- ErrConfigExists (line 66)
  | presetRead                   -- Templates.ReadFile failure (line 78)
  | presetDecode                 -- preset json.Unmarshal failure (line 83)
  | stepDecode                   -- step payload json.Unmarshal failure
  | openFile (path : String)     -- os.Open / os.ReadFile failure
  | decodeConfig (path : String) -- package.json decode failure (line 106)
  | typeAssert                   -- interface conversion panic (line 119)
  | network (package_ : String)  -- http.Get / response decode failure
  | patchApply                   -- hujson.Parse or Patch failure
  | createFile (path : String)   -- os.Create / os.OpenFile failure
  | writeFile (path : String)    -- write syscall failure (where checked)
  deriving DecidableEq, Repr

/-- Observable events of one run, in program order. -/
inductive Event where
  | stepRun (type : String)       -- top of the step loop (line 89)
  | netFetch (package_ : String)  -- registry GET (line 132)
  | stepWrite (path : String)     -- direct write by a patch/copy step
  | writeConfig (path : String)   -- config flush write (line 261)
  | writeIgnore (path : String)   -- ignore flush write (line 285)
  deriving DecidableEq, Repr

/-- The environment: inputs of `Create` plus the external collaborators and
the fault-injection switches for fallible syscalls. -/
structure Env where
  templateName : String
  home : String
  /-- Does `os.Getwd` succeed? -/
  cwdOk : Bool
  /-- The directory `os.Getwd` returns when it succeeds. -/
  cwd : String
  /-- The embedded template store `platform.Templates`: path ↦ content,
  in the lexical order `fs.WalkDir` visits files. -/
  templates : List (String × String)
  /-- `json.Unmarshal` of `preset.json` into `preset{Steps []step}`. -/
  decodePreset : String → Option (List Step)
  /-- The npm registry `latest` endpoint: `none` models a network or
  response-decode failure. -/
  registry : String → Option String
  /-- `json.NewDecoder(...).Decode` of a config file into ordered pairs. -/
  decodeConfig : String → Option KVDoc
  /-- `json.MarshalIndent(doc, "", "  ")`. -/
  encodeConfig : KVDoc → String
  /-- `hujson.Parse` + `value.Patch` + `value.Pack` on (content, patch). -/
  hujsonPatch : String → String → Except Unit String
  /-- `regexp.MustCompile(find).ReplaceAllString(s, replace)` as
  (find, replace, s) ↦ result. -/
  regexReplace : String → String → String → String
  /-- `text/template` render of (source, App, Home). -/
  render : String → String → String → String
  /-- Fault injection: does `os.Create`/`os.OpenFile` fail on this path? -/
  createFails : String → Bool
  /-- Fault injection: does the write syscall fail on this path? -/
  writeFails : String → Bool

/-- The orchestrator's mutable state while the pipeline runs: the disk, the
`packageJsons` accumulator (line 86), the registered ignore sections
(line 58), and the event trace. -/
structure St where
  fs : Fs
  pkgs : List (String × KVDoc)
  gitignores : List GitignoreStep
  trace : List Event
  deriving DecidableEq, Repr

/-- Lines 98-110: fetch the cached `packageJsons[file]`, or read and decode
the file from disk on first reference and cache it. -/
def loadDoc (env : Env) (st : St) (file : String) : St × Except Err KVDoc :=
  match lookupA st.pkgs file with
  | some doc => (st, Except.ok doc)
  | none =>
    match lookupA st.fs file with
    | none => (st, Except.error (Err.openFile file))
    | some content =>
      match env.decodeConfig content with
      | none => (st, Except.error (Err.decodeConfig file))
      | some doc => ({ st with pkgs := setAssoc st.pkgs file doc }, Except.ok doc)

/-- Lines 116-121: the Go loop scans every entry, overwriting `target` at
each match, so the *last* binding of the field is the one that ends up in
`target` (recursion equivalent to that left fold). -/
def findField : KVDoc → String → Option JVal
  | [], _ => none
  | (k, v) :: rest, field =>
    match findField rest field with
    | some w => some w
    | none => if k = field then some v else none

/-- Replace the value of the *last* binding of `field` (the one the Go loop
selected and mutates through the shared map reference). -/
def setFieldLast : KVDoc → String → JVal → KVDoc
  | [], _, _ => []
  | (k, w) :: rest, field, v =>
    if rest.any (fun kv => kv.1 = field) then (k, w) :: setFieldLast rest field v
    else if k = field then (k, v) :: rest
    else (k, w) :: setFieldLast rest field v

/-- Lines 116-126: locate the target field's object; panic (modelled as an
error) if its value is not an object; append an empty object if absent. -/
def resolveTarget (doc : KVDoc) (field : String) : Except Err (KVDoc × List (String × String)) :=
  match findField doc field with
  | some (JVal.obj m) => Except.ok (doc, m)
  | some _ => Except.error Err.typeAssert
  | none => Except.ok (doc ++ [(field, JVal.obj [])], [])

/-- Go map assignment `target[package] = version`: overwrite the binding in
place if present, append it otherwise. -/
def setKey : List (String × String) → String → String → List (String × String)
  | [], key, v => [(key, v)]
  | (k, w) :: rest, key, v =>
    if k = key then (k, v) :: rest else (k, w) :: setKey rest key v

/-- Lines 91-148: the npm step.  Load (or fetch from cache) the config
document, locate the dependencies/devDependencies object, resolve the
version (querying the registry when no explicit version is given — a
failure there aborts), and set `target[package] = version`. -/
def npmRun (env : Env) (st : St) (p : NpmStep) : St × Option Err :=
  match loadDoc env st p.file with
  | (st1, Except.error e) => (st1, some e)
  | (st1, Except.ok doc) =>
    let field := if p.dev then "devDependencies" else "dependencies"
    match resolveTarget doc field with
    | Except.error e => (st1, some e)
    | Except.ok (doc1, m) =>
      if p.version = "" then
        match env.registry p.package with
        | none => (st1, some (Err.network p.package))
        | some v =>
          let st2 := { st1 with trace := st1.trace ++ [Event.netFetch p.package] }
          let doc2 := setFieldLast doc1 field (JVal.obj (setKey m p.package v))
          ({ st2 with pkgs := setAssoc st2.pkgs p.file doc2 }, none)
      else
        let doc2 := setFieldLast doc1 field (JVal.obj (setKey m p.package p.version))
        ({ st1 with pkgs := setAssoc st1.pkgs p.file doc2 }, none)

/-- Lines 150-189: the patch step.  A missing target file is skipped
without error (`os.IsNotExist` branch, line 160).  Otherwise parse+patch+
pack via hujson, apply the regex substitutions in order, truncate-create
the file and write the final text back.  The error of the final
`file.WriteString(packed)` (line 187) is DISCARDED by the Go code, so a
failed write leaves the file truncated and the step reports success. -/
def patchRun (env : Env) (st : St) (p : PatchStep) : St × Option Err :=
  match lookupA st.fs p.file with
  | none => (st, none)
  | some content =>
    match env.hujsonPatch content p.patch with
    | Except.error _ => (st, some Err.patchApply)
    | Except.ok packed0 =>
      let packed := p.regex.foldl (fun acc pr => env.regexReplace pr.1 pr.2 acc) packed0
      if env.createFails p.file then (st, some (Err.createFile p.file))
      else
        let st1 := { st with fs := setAssoc st.fs p.file "",
                             trace := st.trace ++ [Event.stepWrite p.file] }
        if env.writeFails p.file then (st1, none)
        else ({ st1 with fs := setAssoc st1.fs p.file packed }, none)

/-- One file visited by the copy step's `fs.WalkDir` callback
(lines 193-239): render the template, apply the (defective) existence
guard `os.IsExist(os.Stat-error)`, truncate-create the destination and
write the rendered text (a render/write failure aborts, line 233-236). -/
def copyLoop (env : Env) (dirName : String) (pre : String) (st : St) :
    List (String × String) → St × Option Err
  | [] => (st, none)
  | (path, src) :: rest =>
    let name := strDropN path (strLen pre + 1)
    if osIsExist (statErr st.fs name) then copyLoop env dirName pre st rest
    else if env.createFails name then (st, some (Err.createFile name))
    else
      let rendered := env.render src dirName env.home
      let st1 := { st with fs := setAssoc st.fs name "" }
      if env.writeFails name then (st1, some (Err.writeFile name))
      else copyLoop env dirName pre
        { st1 with fs := setAssoc st1.fs name rendered,
                   trace := st1.trace ++ [Event.stepWrite name] } rest

/-- Lines 191-243: the copy step walks `templates/<name>/files/**` of the
template store.  Directory entries only trigger `MkdirAll` (directories are
implicit in the flat disk model), so the walk reduces to the file entries,
in the store's lexical order. -/
def copyRun (env : Env) (dirName : String) (st : St) : St × Option Err :=
  let pre := "templates/" ++ env.templateName ++ "/files"
  copyLoop env dirName pre st
    (env.templates.filter (fun e => strStartsWith e.1 (pre ++ "/")))

/-- Lines 245-252: the gitignore step only registers its section. -/
def gitignoreRun (st : St) (g : GitignoreStep) : St :=
  { st with gitignores := st.gitignores ++ [g] }

/-- Lines 88-254: dispatch one step by its type tag (the Go `switch`).  An
unrecognised tag matches no case and the loop moves on; the payload is
never decoded for it. -/
def runStep (env : Env) (dirName : String) (st : St) (s : Step) : St × Option Err :=
  let st := { st with trace := st.trace ++ [Event.stepRun s.type] }
  if s.type = "npm" then
    match decodeNpm s.properties with
    | none => (st, some Err.stepDecode)
    | some p => npmRun env st p
  else if s.type = "patch" then
    match decodePatch s.properties with
    | none => (st, some Err.stepDecode)
    | some p => patchRun env st p
  else if s.type = "copy" then copyRun env dirName st
  else if s.type = "gitignore" then
    match decodeGitignore s.properties with
    | none => (st, some Err.stepDecode)
    | some g => (gitignoreRun st g, none)
  else (st, none)

/-- The step loop: the first error aborts the remaining pipeline. -/
def runSteps (env : Env) (dirName : String) (st : St) : List Step → St × Option Err
  | [] => (st, none)
  | s :: rest =>
    match runStep env dirName st s with
    | (st1, some e) => (st1, some e)
    | (st1, none) => runSteps env dirName st1 rest

/-- Lines 256-265: serialize and write every accumulated config document.
(Go iterates the `packageJsons` map in unspecified order; the model flushes
in first-insertion order — every entry is flushed either way.) -/
def configLoop (env : Env) (st : St) : List (String × KVDoc) → St × Option Err
  | [] => (st, none)
  | (file, doc) :: rest =>
    if env.writeFails file then (st, some (Err.writeFile file))
    else configLoop env
      { st with fs := setAssoc st.fs file (env.encodeConfig doc),
                trace := st.trace ++ [Event.writeConfig file] } rest

def configFlush (env : Env) (st : St) : St × Option Err :=
  configLoop env st st.pkgs

/-- The text written for one appended ignore section, as a function of the
content SNAPSHOT read when the ignore file was opened (lines 282-285): an
extra newline when the snapshot is non-empty and unterminated, then
`"\n" ++ name ++ "\n" ++ path ++ "\n"`. -/
def sectionText (content : String) (g : GitignoreStep) : String :=
  (if strNonEmpty content && !endsNl content then "\n" else "")
    ++ "\n" ++ g.name ++ "\n" ++ g.path ++ "\n"

/-- Lines 280-290: the flush loop over the registered sections.  The
suppression test and the newline test both consult `content`, the snapshot
read at open time, which the loop never updates; each write appends to the
actual file.  (When the checked `WriteString` of line 285 fails the loop
aborts; the unchecked newline write of line 283 is subsumed into the same
failure.) -/
def ignoreLoop (env : Env) (content : String) (st : St) :
    List GitignoreStep → St × Option Err
  | [] => (st, none)
  | g :: rest =>
    if strContains content g.path then ignoreLoop env content st rest
    else if env.writeFails ".gitignore" then (st, some (Err.writeFile ".gitignore"))
    else
      let cur := (lookupA st.fs ".gitignore").getD ""
      ignoreLoop env content
        { st with fs := setAssoc st.fs ".gitignore" (cur ++ sectionText content g),
                  trace := st.trace ++ [Event.writeIgnore g.path] } rest

/-- Lines 267-290: open `.gitignore` read-write (creating it when absent,
which is why the file exists afterwards even if nothing is appended), read
its whole content once, then run the flush loop against that snapshot. -/
def ignoreFlush (env : Env) (st : St) : St × Option Err :=
  if env.createFails ".gitignore" then (st, some (Err.createFile ".gitignore"))
  else
    let content := (lookupA st.fs ".gitignore").getD ""
    ignoreLoop env content
      { st with fs := setAssoc st.fs ".gitignore" content } st.gitignores

/-- The outcome of one `Create` call: the returned error (or `none` for the
Go `nil`), the final disk, and the event trace. -/
structure Out where
  result : Option Err
  fs : Fs
  trace : List Event
  deriving DecidableEq, Repr

/-- `Create` (create.go lines 57-293).  In order: seed the ignore-section
list with the default `("# sst", ".sst")` section; abort with
`ErrConfigExists` if `sst.config.ts` exists; return `nil` (!) if `os.Getwd`
fails; derive the project name; read and decode the preset; run the steps;
flush the config documents; flush the ignore file. -/
def Create (env : Env) (fs0 : Fs) : Out :=
  let gitignores0 : List GitignoreStep := [⟨"# sst", ".sst"⟩]
  if (lookupA fs0 "sst.config.ts").isSome then ⟨some Err.configExists, fs0, []⟩
  else if !env.cwdOk then ⟨none, fs0, []⟩
  else
    let dirName := strToLower (baseName env.cwd)
    match lookupA env.templates ("templates/" ++ env.templateName ++ "/preset.json") with
    | none => ⟨some Err.presetRead, fs0, []⟩
    | some presetBytes =>
      match env.decodePreset presetBytes with
      | none => ⟨some Err.presetDecode, fs0, []⟩
      | some steps =>
        match runSteps env dirName ⟨fs0, [], gitignores0, []⟩ steps with
        | (st1, some e) => ⟨some e, st1.fs, st1.trace⟩
        | (st1, none) =>
          match configFlush env st1 with
          | (st2, some e) => ⟨some e, st2.fs, st2.trace⟩
          | (st2, none) =>
            match ignoreFlush env st2 with
            | (st3, r) => ⟨r, st3.fs, st3.trace⟩

/-! ### Concrete environments used by the witnesses and counterexamples -/

/-- A base concrete environment: template `t`, empty preset, no fault
injection.  Individual claims adjust fields as needed. -/
def baseEnv : Env where
  templateName := "t"
  home := "h"
  cwdOk := true
  cwd := "/w/App"
  templates := [("templates/t/preset.json", "PB")]
  decodePreset := fun _ => some []
  registry := fun _ => none
  decodeConfig := fun _ => none
  encodeConfig := fun _ => "CFG"
  hujsonPatch := fun c p => Except.ok (c ++ p)
  regexReplace := fun _ r s => s ++ r
  render := fun src _ _ => src
  createFails := fun _ => false
  writeFails := fun _ => false

/-! ### Specification-side observers -/

/-- The text the ignore flush appends, as a function of the content
snapshot alone: each registered section whose path does not occur in the
snapshot contributes its `sectionText`, independently of the sections
before it in the list. -/
def ignoreAppend (content : String) : List GitignoreStep → String
  | [] => ""
  | g :: rest =>
    (if strContains content g.path then "" else sectionText content g)
      ++ ignoreAppend content rest

/-- The dependency object currently accumulated for (file, field): the
entries of the field's object in the cached config document. -/
def depMap (st : St) (file field : String) : List (String × String) :=
  match lookupA st.pkgs file with
  | some doc =>
    match findField doc field with
    | some (JVal.obj m) => m
    | _ => []
  | none => []

/-- How many entries of the object have the given key. -/
def countK : List (String × String) → String → Nat
  | [], _ => 0
  | (k, _) :: rest, key => (if k = key then 1 else 0) + countK rest key

/-- Events of the step-execution phase. -/
def evtStep : Event → Bool
  | Event.stepRun _ => true
  | Event.netFetch _ => true
  | Event.stepWrite _ => true
  | _ => false

/-- Events of the config flush phase. -/
def evtConfig : Event → Bool
  | Event.writeConfig _ => true
  | _ => false

/-- Events of the ignore flush phase. -/
def evtIgnore : Event → Bool
  | Event.writeIgnore _ => true
  | _ => false

/-! ### Association-list and object-update lemmas -/

theorem lookupA_setAssoc_self {α : Type} (l : List (String × α)) (k : String) (v : α) :
    lookupA (setAssoc l k v) k = some v := by
  induction l with
  | nil => simp [setAssoc, lookupA]
  | cons hd tl ih =>
    obtain ⟨k', w⟩ := hd
    by_cases h : k' = k
    · simp [setAssoc, lookupA, h]
    · simp [setAssoc, lookupA, h, ih]

theorem lookupA_setAssoc_ne {α : Type} (l : List (String × α)) (k k' : String) (v : α)
    (h : k' ≠ k) : lookupA (setAssoc l k v) k' = lookupA l k' := by
  induction l with
  | nil => simp [setAssoc, lookupA, Ne.symm h]
  | cons hd tl ih =>
    obtain ⟨k'', w⟩ := hd
    by_cases h2 : k'' = k
    · subst h2
      simp [setAssoc, lookupA, Ne.symm h]
    · simp [setAssoc, lookupA, h2, ih]

theorem setAssoc_setAssoc {α : Type} (l : List (String × α)) (k : String) (a b : α) :
    setAssoc (setAssoc l k a) k b = setAssoc l k b := by
  induction l with
  | nil => simp [setAssoc]
  | cons hd tl ih =>
    obtain ⟨k', w⟩ := hd
    by_cases h : k' = k
    · simp [setAssoc, h]
    · simp [setAssoc, h, ih]

theorem setAssoc_of_lookup_self {α : Type} (l : List (String × α)) (k : String) (v : α)
    (h : lookupA l k = some v) : setAssoc l k v = l := by
  induction l with
  | nil => simp [lookupA] at h
  | cons hd tl ih =>
    obtain ⟨k', w⟩ := hd
    by_cases h2 : k' = k
    · simp [lookupA, h2] at h
      simp [setAssoc, h2, h]
    · simp [lookupA, h2] at h
      simp [setAssoc, h2, ih h]

theorem lookupA_setKey_self (m : List (String × String)) (k v : String) :
    lookupA (setKey m k v) k = some v := by
  induction m with
  | nil => simp [setKey, lookupA]
  | cons hd tl ih =>
    obtain ⟨k', w⟩ := hd
    by_cases h : k' = k
    · simp [setKey, lookupA, h]
    · simp [setKey, lookupA, h, ih]

theorem lookupA_setKey_ne (m : List (String × String)) (k k' v : String)
    (h : k' ≠ k) : lookupA (setKey m k v) k' = lookupA m k' := by
  induction m with
  | nil => simp [setKey, lookupA, Ne.symm h]
  | cons hd tl ih =>
    obtain ⟨k'', w⟩ := hd
    by_cases h2 : k'' = k
    · subst h2
      simp [setKey, lookupA, Ne.symm h]
    · simp [setKey, lookupA, h2, ih]

theorem countK_setKey (m : List (String × String)) (k v : String) :
    countK (setKey m k v) k = if countK m k = 0 then 1 else countK m k := by
  induction m with
  | nil => simp [setKey, countK]
  | cons hd tl ih =>
    obtain ⟨k', w⟩ := hd
    by_cases h : k' = k
    · simp [setKey, countK, h]
    · simp [setKey, countK, h, ih]

theorem findField_eq_none (doc : KVDoc) (f : String)
    (h : doc.any (fun kv => kv.1 = f) = false) : findField doc f = none := by
  induction doc with
  | nil => simp [findField]
  | cons hd tl ih =>
    obtain ⟨k, v⟩ := hd
    simp only [List.any_cons, Bool.or_eq_false_iff] at h
    have hk : k ≠ f := by simpa using h.1
    simp [findField, ih h.2, hk]

theorem any_of_findField (doc : KVDoc) (f : String) (w : JVal)
    (h : findField doc f = some w) : doc.any (fun kv => kv.1 = f) = true := by
  cases hb : doc.any (fun kv => kv.1 = f) with
  | true => rfl
  | false => rw [findField_eq_none doc f hb] at h; cases h

theorem findField_setFieldLast (doc : KVDoc) (f : String) (v : JVal)
    (h : doc.any (fun kv => kv.1 = f) = true) :
    findField (setFieldLast doc f v) f = some v := by
  induction doc with
  | nil => simp at h
  | cons hd tl ih =>
    obtain ⟨k, w⟩ := hd
    cases h1 : tl.any (fun kv => kv.1 = f) with
    | true => simp [setFieldLast, h1, findField, ih h1]
    | false =>
      have hk : k = f := by
        simp only [List.any_cons, h1, Bool.or_false] at h
        simpa using h
      simp [setFieldLast, h1, hk, findField, findField_eq_none tl f h1]

/-! ### Characterization of the ignore-file flush loop -/

theorem ignoreLoop_spec (env : Env) (content : String)
    (hw : env.writeFails ".gitignore" = false) :
    ∀ (gs : List GitignoreStep) (st : St) (cur : String),
      lookupA st.fs ".gitignore" = some cur →
      ignoreLoop env content st gs =
        ({ st with
            fs := setAssoc st.fs ".gitignore" (cur ++ ignoreAppend content gs),
            trace := st.trace ++ (gs.filter (fun g => !strContains content g.path)).map
              (fun g => Event.writeIgnore g.path) }, none) := by
  intro gs
  induction gs with
  | nil =>
    intro st cur hcur
    simp [ignoreLoop, ignoreAppend, setAssoc_of_lookup_self _ _ _ hcur]
  | cons g rest ih =>
    intro st cur hcur
    cases hc : strContains content g.path with
    | true =>
      rw [ignoreLoop]
      simp only [hc, if_true]
      rw [ih st cur hcur]
      simp [ignoreAppend, hc]
    | false =>
      rw [ignoreLoop]
      simp only [hc, hw, Bool.false_eq_true, if_false, hcur, Option.getD_some]
      rw [ih _ (cur ++ sectionText content g) (lookupA_setAssoc_self _ _ _)]
      simp [ignoreAppend, hc, setAssoc_setAssoc, String.append_assoc]

/-! ### Traces: each phase only emits events of its kind -/

/-- The output trace extends the input trace with events satisfying `p`. -/
def TraceExt (st : St) (out : St × Option Err) (p : Event → Bool) : Prop :=
  ∃ es, out.1.trace = st.trace ++ es ∧ es.all p = true

theorem traceExt_comp {st st1 : St} {out : St × Option Err} {p : Event → Bool}
    (es0 : List Event) (h0 : st1.trace = st.trace ++ es0) (hp0 : es0.all p = true)
    (h : TraceExt st1 out p) : TraceExt st out p := by
  obtain ⟨es, he, hp⟩ := h
  exact ⟨es0 ++ es, by simp [he, h0], by simp_all⟩

theorem traceExt_refl {st : St} {r : Option Err} {p : Event → Bool} :
    TraceExt st (st, r) p :=
  ⟨[], by simp, rfl⟩

theorem loadDoc_trace (env : Env) (st : St) (file : String) :
    (loadDoc env st file).1.trace = st.trace := by
  unfold loadDoc
  split
  · rfl
  · split
    · rfl
    · split
      · rfl
      · rfl

theorem npmRun_trace (env : Env) (st : St) (p : NpmStep) :
    TraceExt st (npmRun env st p) evtStep := by
  have hload := loadDoc_trace env st p.file
  unfold npmRun
  split
  next st1 e heq =>
    rw [heq] at hload
    exact ⟨[], by simp_all, rfl⟩
  next st1 doc heq =>
    rw [heq] at hload
    simp only at hload
    generalize (if p.dev = true then "devDependencies" else "dependencies") = F
    cases hrt : resolveTarget doc F with
    | error e => exact ⟨[], by simp [hrt, hload], rfl⟩
    | ok pr =>
      obtain ⟨doc1, m⟩ := pr
      by_cases hv : p.version = ""
      · cases hreg : env.registry p.package with
        | none => exact ⟨[], by simp [hrt, hv, hreg, hload], rfl⟩
        | some v => exact ⟨[Event.netFetch p.package], by simp [hrt, hv, hreg, hload], rfl⟩
      · exact ⟨[], by simp [hrt, hv, hload], rfl⟩

theorem patchRun_trace (env : Env) (st : St) (p : PatchStep) :
    TraceExt st (patchRun env st p) evtStep := by
  unfold patchRun
  split
  · exact traceExt_refl
  · split
    · exact traceExt_refl
    · split
      · exact traceExt_refl
      · split
        · exact ⟨[Event.stepWrite p.file], rfl, rfl⟩
        · exact ⟨[Event.stepWrite p.file], rfl, rfl⟩

theorem copyLoop_trace (env : Env) (dirName pre : String) :
    ∀ (l : List (String × String)) (st : St),
      TraceExt st (copyLoop env dirName pre st l) evtStep := by
  intro l
  induction l with
  | nil => intro st; exact traceExt_refl
  | cons hd rest ih =>
    intro st
    obtain ⟨path, src⟩ := hd
    rw [copyLoop]
    split
    · exact ih st
    · split
      · exact traceExt_refl
      · split
        · exact ⟨[], by simp, rfl⟩
        · exact traceExt_comp [Event.stepWrite (strDropN path (strLen pre + 1))]
            rfl rfl (ih _)

theorem copyRun_trace (env : Env) (dirName : String) (st : St) :
    TraceExt st (copyRun env dirName st) evtStep :=
  copyLoop_trace env dirName _ _ st

theorem runStep_trace (env : Env) (dirName : String) (st : St) (s : Step) :
    TraceExt st (runStep env dirName st s) evtStep := by
  unfold runStep
  have hstep : ({ st with trace := st.trace ++ [Event.stepRun s.type] } : St).trace
      = st.trace ++ [Event.stepRun s.type] := rfl
  by_cases h1 : s.type = "npm"
  · simp only [h1, if_true]
    cases decodeNpm s.properties with
    | none => exact ⟨[Event.stepRun s.type], by simp [h1], rfl⟩
    | some p =>
      exact traceExt_comp [Event.stepRun s.type] (by simp [h1]) rfl (npmRun_trace env _ p)
  · simp only [h1, if_false]
    by_cases h2 : s.type = "patch"
    · simp only [h2, if_true]
      cases decodePatch s.properties with
      | none => exact ⟨[Event.stepRun s.type], by simp [h2], rfl⟩
      | some p =>
        exact traceExt_comp [Event.stepRun s.type] (by simp [h2]) rfl (patchRun_trace env _ p)
    · simp only [h2, if_false]
      by_cases h3 : s.type = "copy"
      · simp only [h3, if_true]
        exact traceExt_comp [Event.stepRun s.type] (by simp [h3]) rfl
          (copyRun_trace env dirName _)
      · simp only [h3, if_false]
        by_cases h4 : s.type = "gitignore"
        · simp only [h4, if_true]
          cases decodeGitignore s.properties with
          | none => exact ⟨[Event.stepRun s.type], by simp [h4], rfl⟩
          | some g => exact ⟨[Event.stepRun s.type], by simp [gitignoreRun, h4], rfl⟩
        · simp only [h4, if_false]
          exact ⟨[Event.stepRun s.type], by simp, rfl⟩

theorem runSteps_trace (env : Env) (dirName : String) :
    ∀ (steps : List Step) (st : St),
      TraceExt st (runSteps env dirName st steps) evtStep := by
  intro steps
  induction steps with
  | nil => intro st; exact traceExt_refl
  | cons s rest ih =>
    intro st
    rw [runSteps]
    rcases hrs : runStep env dirName st s with ⟨st1, r⟩
    have h1 : TraceExt st (st1, r) evtStep := hrs ▸ runStep_trace env dirName st s
    obtain ⟨es1, he1, hp1⟩ := h1
    cases r with
    | some e => exact ⟨es1, he1, hp1⟩
    | none => exact traceExt_comp es1 he1 hp1 (ih st1)

theorem configLoop_trace (env : Env) :
    ∀ (pkgs : List (String × KVDoc)) (st : St),
      TraceExt st (configLoop env st pkgs) evtConfig := by
  intro pkgs
  induction pkgs with
  | nil => intro st; exact traceExt_refl
  | cons hd rest ih =>
    intro st
    obtain ⟨file, doc⟩ := hd
    rw [configLoop]
    by_cases hwv : env.writeFails file = true
    · simp only [hwv, if_true]
      exact traceExt_refl
    · simp only [hwv, if_false]
      exact traceExt_comp [Event.writeConfig file] (by simp) rfl (ih _)

theorem ignoreLoop_trace (env : Env) (content : String) :
    ∀ (gs : List GitignoreStep) (st : St),
      TraceExt st (ignoreLoop env content st gs) evtIgnore := by
  intro gs
  induction gs with
  | nil => intro st; exact traceExt_refl
  | cons g rest ih =>
    intro st
    rw [ignoreLoop]
    by_cases hc : strContains content g.path = true
    · simp only [hc, if_true]
      exact ih st
    · simp only [hc, if_false]
      by_cases hwv : env.writeFails ".gitignore" = true
      · simp only [hwv, if_true]
        exact traceExt_refl
      · simp only [hwv, if_false]
        exact traceExt_comp [Event.writeIgnore g.path] (by simp) rfl (ih _)

theorem ignoreFlush_trace (env : Env) (st : St) :
    TraceExt st (ignoreFlush env st) evtIgnore := by
  unfold ignoreFlush
  by_cases hc : env.createFails ".gitignore" = true
  · simp only [hc, if_true]
    exact traceExt_refl
  · simp only [hc, if_false]
    exact traceExt_comp [] (by simp) rfl (ignoreLoop_trace env _ st.gitignores _)

/-! ### Computation lemmas -/

/-- An npm step whose document is already cached, whose target field holds
an object, and whose version is explicit, only rewrites the accumulator:
it stores the document with `target[package] = version` applied. -/
theorem npmRun_cached (env : Env) (st : St) (pk ver file : String) (dev : Bool)
    (doc : KVDoc) (m : List (String × String))
    (hdoc : lookupA st.pkgs file = some doc)
    (hfield : findField doc (if dev then "devDependencies" else "dependencies")
      = some (JVal.obj m))
    (hv : ver ≠ "") :
    npmRun env st ⟨pk, ver, file, dev⟩ =
      ({ st with pkgs := setAssoc st.pkgs file
                   (setFieldLast doc (if dev then "devDependencies" else "dependencies")
                     (JVal.obj (setKey m pk ver))) }, none) := by
  unfold npmRun loadDoc
  dsimp only
  rw [hdoc]
  simp [resolveTarget, hfield, hv]

theorem configFlush_trace (env : Env) (st : St) :
    TraceExt st (configFlush env st) evtConfig :=
  configLoop_trace env st.pkgs st

/-! ### The claims -/

/-- **C1** (code bug, exhibited): the spec requires that a copy step never
overwrite an existing destination file, but the guard at create.go line 224
tests `os.IsExist(err)` on the result of `os.Stat`, which is `false` both
when the file exists (`err = nil`) and when it does not (`err` is the
not-exist error), so the skip never fires.  Concretely: the destination
`app.ts` exists with content `"USER"`, the template provides `"TPL"`, and
after a successful `Create` run the file holds the rendered template, not
the user's content. -/
theorem c1_copy_overwrites_existing_file :
    (∀ (fs : Fs) (p : String), osIsExist (statErr fs p) = false) ∧
    Create { baseEnv with
        decodePreset := fun _ => some [⟨"copy", Props.copyP⟩],
        templates := [("templates/t/preset.json", "PB"), ("templates/t/files/app.ts", "TPL")] }
      [("app.ts", "USER")] =
      ⟨none, [("app.ts", "TPL"), (".gitignore", "\n# sst\n.sst\n")],
        [Event.stepRun "copy", Event.stepWrite "app.ts", Event.writeIgnore ".sst"]⟩ ∧
    lookupA (Create { baseEnv with
        decodePreset := fun _ => some [⟨"copy", Props.copyP⟩],
        templates := [("templates/t/preset.json", "PB"), ("templates/t/files/app.ts", "TPL")] }
      [("app.ts", "USER")]).fs "app.ts" ≠ some "USER" := by
  refine ⟨?_, by decide, by decide⟩
  intro fs p
  unfold statErr osIsExist
  cases lookupA fs p <;> rfl

/-- **C3**: if the project marker `sst.config.ts` already exists, `Create`
returns `ErrConfigExists` before loading the preset: the disk is unchanged
and no event (no preset read, no network call, no write) has happened. -/
theorem c3_marker_exists_aborts (env : Env) (fs0 : Fs)
    (h : (lookupA fs0 "sst.config.ts").isSome = true) :
    Create env fs0 = ⟨some Err.configExists, fs0, []⟩ := by
  unfold Create
  simp [h]

/-- Witness for C3 at a concrete initialized directory. -/
theorem c3_marker_exists_aborts_witness :
    Create baseEnv [("sst.config.ts", "export {}")] =
      ⟨some Err.configExists, [("sst.config.ts", "export {}")], []⟩ :=
  c3_marker_exists_aborts baseEnv [("sst.config.ts", "export {}")] (by decide)

/-- **C9**: when `os.Getwd` fails (and the marker is absent), `Create`
returns `nil` — reported success — immediately: nothing is read, no step
runs, and the disk is untouched (create.go lines 69-72 return `nil`
instead of the error). -/
theorem c9_getwd_failure_returns_nil (env : Env) (fs0 : Fs)
    (h1 : lookupA fs0 "sst.config.ts" = none) (h2 : env.cwdOk = false) :
    Create env fs0 = ⟨none, fs0, []⟩ := by
  unfold Create
  simp [h1, h2]

/-- Witness for C9 at a concrete world. -/
theorem c9_getwd_failure_returns_nil_witness :
    Create { baseEnv with cwdOk := false } [("a.txt", "x")] =
      ⟨none, [("a.txt", "x")], []⟩ :=
  c9_getwd_failure_returns_nil { baseEnv with cwdOk := false } [("a.txt", "x")]
    (by decide) (by decide)

/-- **C6**: a patch step whose target file does not exist is skipped
without error — the state is unchanged apart from the step-start event —
and the pipeline continues with the remaining steps.  No file is created
for that path. -/
theorem c6_patch_missing_file_skipped (env : Env) (dirName : String) (st : St)
    (f patch : String) (regex : List (String × String)) (rest : List Step)
    (h : lookupA st.fs f = none) :
    runStep env dirName st ⟨"patch", Props.patchP ⟨f, patch, regex⟩⟩ =
      ({ st with trace := st.trace ++ [Event.stepRun "patch"] }, none) ∧
    runSteps env dirName st (⟨"patch", Props.patchP ⟨f, patch, regex⟩⟩ :: rest) =
      runSteps env dirName { st with trace := st.trace ++ [Event.stepRun "patch"] } rest := by
  have hstep : runStep env dirName st ⟨"patch", Props.patchP ⟨f, patch, regex⟩⟩ =
      ({ st with trace := st.trace ++ [Event.stepRun "patch"] }, none) := by
    unfold runStep
    simp only [decodePatch]
    unfold patchRun
    simp [h]
  exact ⟨hstep, by rw [runSteps, hstep]⟩

/-- Witness for C6: a concrete patch step on a world without the target. -/
theorem c6_patch_missing_file_skipped_witness :
    runStep baseEnv "app" ⟨[], [], [⟨"# sst", ".sst"⟩], []⟩
        ⟨"patch", Props.patchP ⟨"tsconfig.json", "P", []⟩⟩ =
      (⟨[], [], [⟨"# sst", ".sst"⟩], [Event.stepRun "patch"]⟩, none) ∧
    runSteps baseEnv "app" ⟨[], [], [⟨"# sst", ".sst"⟩], []⟩
        [⟨"patch", Props.patchP ⟨"tsconfig.json", "P", []⟩⟩] =
      runSteps baseEnv "app" ⟨[], [], [⟨"# sst", ".sst"⟩], [Event.stepRun "patch"]⟩ [] :=
  c6_patch_missing_file_skipped baseEnv "app" ⟨[], [], [⟨"# sst", ".sst"⟩], []⟩
    "tsconfig.json" "P" [] [] (by decide)

/-- **C10**: a step whose type tag is none of `npm`, `patch`, `copy`,
`gitignore` matches no case of the `switch`: it is skipped silently — no
error, no state change beyond the step-start event, and no attempt to
decode its payload (`props` here is universally quantified, so even an
undecodable `rawP` payload passes through) — and the pipeline continues
with the remaining steps. -/
theorem c10_unknown_step_type_skipped (env : Env) (dirName : String) (st : St)
    (ty : String) (props : Props) (rest : List Step)
    (h1 : ty ≠ "npm") (h2 : ty ≠ "patch") (h3 : ty ≠ "copy") (h4 : ty ≠ "gitignore") :
    runStep env dirName st ⟨ty, props⟩ =
      ({ st with trace := st.trace ++ [Event.stepRun ty] }, none) ∧
    runSteps env dirName st (⟨ty, props⟩ :: rest) =
      runSteps env dirName { st with trace := st.trace ++ [Event.stepRun ty] } rest := by
  have hstep : runStep env dirName st ⟨ty, props⟩ =
      ({ st with trace := st.trace ++ [Event.stepRun ty] }, none) := by
    unfold runStep
    simp [h1, h2, h3, h4]
  exact ⟨hstep, by rw [runSteps, hstep]⟩

/-- Witness for C10: a `docker` step with a malformed payload is skipped
and the following gitignore step still runs. -/
theorem c10_unknown_step_type_skipped_witness :
    runStep baseEnv "app" ⟨[], [], [⟨"# sst", ".sst"⟩], []⟩ ⟨"docker", Props.rawP⟩ =
      (⟨[], [], [⟨"# sst", ".sst"⟩], [Event.stepRun "docker"]⟩, none) ∧
    runSteps baseEnv "app" ⟨[], [], [⟨"# sst", ".sst"⟩], []⟩
        [⟨"docker", Props.rawP⟩, ⟨"gitignore", Props.gitignoreP ⟨"# a", "node_modules"⟩⟩] =
      runSteps baseEnv "app" ⟨[], [], [⟨"# sst", ".sst"⟩], [Event.stepRun "docker"]⟩
        [⟨"gitignore", Props.gitignoreP ⟨"# a", "node_modules"⟩⟩] :=
  c10_unknown_step_type_skipped baseEnv "app" ⟨[], [], [⟨"# sst", ".sst"⟩], []⟩
    "docker" Props.rawP [⟨"gitignore", Props.gitignoreP ⟨"# a", "node_modules"⟩⟩]
    (by decide) (by decide) (by decide) (by decide)

/-- **C8** (code bug, exhibited): the spec declares every filesystem write
failure fatal, but create.go line 187 discards the error of
`file.WriteString(packed)`.  With a patch step whose target exists, whose
`os.Create` succeeds, and whose write syscall fails, `Create` returns `nil`
(success) while the file is left truncated — the patched text
(`"{}" ++ "P"` under this environment's hujson model) was never written. -/
theorem c8_patch_write_error_swallowed :
    (Create { baseEnv with
        decodePreset := fun _ => some [⟨"patch", Props.patchP ⟨"tsconfig.json", "P", []⟩⟩],
        writeFails := fun p => p == "tsconfig.json" }
      [("tsconfig.json", "{}")]).result = none ∧
    lookupA (Create { baseEnv with
        decodePreset := fun _ => some [⟨"patch", Props.patchP ⟨"tsconfig.json", "P", []⟩⟩],
        writeFails := fun p => p == "tsconfig.json" }
      [("tsconfig.json", "{}")]).fs "tsconfig.json" = some "" := by
  constructor
  · decide
  · decide

/-- **C2 counterexample**: two gitignore steps registering the same path
`node_modules` with different headers, over an initially absent ignore
file, produce TWO occurrences of the path in the final file — the flush
loop's suppression check reads the `content` snapshot taken before the
loop and never sees its own writes — refuting "every registered ignore
path occurs at most once". -/
theorem c2_duplicate_path_counterexample :
    (Create { baseEnv with
        decodePreset := fun _ => some
          [⟨"gitignore", Props.gitignoreP ⟨"# a", "node_modules"⟩⟩,
           ⟨"gitignore", Props.gitignoreP ⟨"# b", "node_modules"⟩⟩] } []).result = none ∧
    lookupA (Create { baseEnv with
        decodePreset := fun _ => some
          [⟨"gitignore", Props.gitignoreP ⟨"# a", "node_modules"⟩⟩,
           ⟨"gitignore", Props.gitignoreP ⟨"# b", "node_modules"⟩⟩] } []).fs ".gitignore" =
      some "\n# sst\n.sst\n\n# a\nnode_modules\n\n# b\nnode_modules\n" ∧
    countOcc ("\n# sst\n.sst\n\n# a\nnode_modules\n\n# b\nnode_modules\n").data
      ("node_modules").data = 2 := by
  refine ⟨by decide, by decide, by decide⟩

/-- **C2 (amended)**: duplicate suppression in the ignore flush consults
only the snapshot `content` read when the file was opened — never the
sections appended during the same flush.  The loop therefore (a) appends
exactly the sections whose path is not a substring of the snapshot, in
list order, and (b) appends *both* of two registered sections that share a
path absent from the snapshot, so such a path ends up in the file once per
registration, not once overall; only paths already present in the snapshot
are suppressed. -/
theorem c2_ignore_flush_snapshot_dedup (env : Env) (content : String)
    (gs : List GitignoreStep) (st : St) (cur : String)
    (hw : env.writeFails ".gitignore" = false)
    (hcur : lookupA st.fs ".gitignore" = some cur) :
    ignoreLoop env content st gs =
      ({ st with
          fs := setAssoc st.fs ".gitignore" (cur ++ ignoreAppend content gs),
          trace := st.trace ++ (gs.filter (fun g => !strContains content g.path)).map
            (fun g => Event.writeIgnore g.path) }, none) ∧
    ∀ g1 g2 : GitignoreStep, g1.path = g2.path → strContains content g1.path = false →
      ignoreAppend content [g1, g2] = sectionText content g1 ++ sectionText content g2 := by
  constructor
  · exact ignoreLoop_spec env content hw gs st cur hcur
  · intro g1 g2 hp hc
    have hc2 : strContains content g2.path = false := hp ▸ hc
    simp [ignoreAppend, hc, hc2]

/-- Witness for C2's amended theorem: flushing two sections with the same
fresh path over an empty snapshot appends both of them. -/
theorem c2_ignore_flush_snapshot_dedup_witness :
    ignoreLoop baseEnv "" ⟨[(".gitignore", "")], [], [], []⟩
        [⟨"# a", "node_modules"⟩, ⟨"# b", "node_modules"⟩] =
      (⟨[(".gitignore", "\n# a\nnode_modules\n\n# b\nnode_modules\n")], [], [],
        [Event.writeIgnore "node_modules", Event.writeIgnore "node_modules"]⟩, none) ∧
    ignoreAppend "" [⟨"# a", "node_modules"⟩, ⟨"# b", "node_modules"⟩] =
      sectionText "" ⟨"# a", "node_modules"⟩ ++ sectionText "" ⟨"# b", "node_modules"⟩ := by
  have h := c2_ignore_flush_snapshot_dedup baseEnv ""
    [⟨"# a", "node_modules"⟩, ⟨"# b", "node_modules"⟩]
    ⟨[(".gitignore", "")], [], [], []⟩ "" (by decide) (by decide)
  exact ⟨h.1.trans (by decide), h.2 ⟨"# a", "node_modules"⟩ ⟨"# b", "node_modules"⟩ rfl (by decide)⟩

/-- **C4**: within one run, for npm steps against an already-loaded config
document whose target field holds an object: registering two *different*
packages in the same file and field leaves both in the accumulated
document (each with its own version), while registering the *same* package
twice leaves a single entry holding the later version — the earlier value
is overwritten in place, not appended as a second entry. -/
theorem c4_npm_last_write_wins (env : Env) (st : St) (file : String) (dev : Bool)
    (p1 p2 v1 v2 : String) (doc : KVDoc) (m : List (String × String))
    (hdoc : lookupA st.pkgs file = some doc)
    (hfield : findField doc (if dev then "devDependencies" else "dependencies")
      = some (JVal.obj m))
    (hv1 : v1 ≠ "") (hv2 : v2 ≠ "") (hne : p1 ≠ p2) (hcnt : countK m p1 ≤ 1) :
    (npmRun env st ⟨p1, v1, file, dev⟩).2 = none ∧
    (npmRun env (npmRun env st ⟨p1, v1, file, dev⟩).1 ⟨p2, v2, file, dev⟩).2 = none ∧
    lookupA (depMap (npmRun env (npmRun env st ⟨p1, v1, file, dev⟩).1 ⟨p2, v2, file, dev⟩).1
      file (if dev then "devDependencies" else "dependencies")) p1 = some v1 ∧
    lookupA (depMap (npmRun env (npmRun env st ⟨p1, v1, file, dev⟩).1 ⟨p2, v2, file, dev⟩).1
      file (if dev then "devDependencies" else "dependencies")) p2 = some v2 ∧
    (npmRun env (npmRun env st ⟨p1, v1, file, dev⟩).1 ⟨p1, v2, file, dev⟩).2 = none ∧
    lookupA (depMap (npmRun env (npmRun env st ⟨p1, v1, file, dev⟩).1 ⟨p1, v2, file, dev⟩).1
      file (if dev then "devDependencies" else "dependencies")) p1 = some v2 ∧
    countK (depMap (npmRun env (npmRun env st ⟨p1, v1, file, dev⟩).1 ⟨p1, v2, file, dev⟩).1
      file (if dev then "devDependencies" else "dependencies")) p1 = 1 := by
  have h1 := npmRun_cached env st p1 v1 file dev doc m hdoc hfield hv1
  have hany : doc.any (fun kv => kv.1 = (if dev then "devDependencies" else "dependencies"))
      = true := any_of_findField _ _ _ hfield
  have hf1 : findField
      (setFieldLast doc (if dev then "devDependencies" else "dependencies")
        (JVal.obj (setKey m p1 v1)))
      (if dev then "devDependencies" else "dependencies")
      = some (JVal.obj (setKey m p1 v1)) := findField_setFieldLast _ _ _ hany
  have hd1 : lookupA (npmRun env st ⟨p1, v1, file, dev⟩).1.pkgs file
      = some (setFieldLast doc (if dev then "devDependencies" else "dependencies")
          (JVal.obj (setKey m p1 v1))) := by
    rw [h1]
    exact lookupA_setAssoc_self _ _ _
  have h2A := npmRun_cached env (npmRun env st ⟨p1, v1, file, dev⟩).1 p2 v2 file dev
    (setFieldLast doc (if dev then "devDependencies" else "dependencies")
      (JVal.obj (setKey m p1 v1))) (setKey m p1 v1) hd1 hf1 hv2
  have h2B := npmRun_cached env (npmRun env st ⟨p1, v1, file, dev⟩).1 p1 v2 file dev
    (setFieldLast doc (if dev then "devDependencies" else "dependencies")
      (JVal.obj (setKey m p1 v1))) (setKey m p1 v1) hd1 hf1 hv2
  have hanyA : (setFieldLast doc (if dev then "devDependencies" else "dependencies")
      (JVal.obj (setKey m p1 v1))).any
      (fun kv => kv.1 = (if dev then "devDependencies" else "dependencies")) = true :=
    any_of_findField _ _ _ hf1
  have hfA : findField
      (setFieldLast
        (setFieldLast doc (if dev then "devDependencies" else "dependencies")
          (JVal.obj (setKey m p1 v1)))
        (if dev then "devDependencies" else "dependencies")
        (JVal.obj (setKey (setKey m p1 v1) p2 v2)))
      (if dev then "devDependencies" else "dependencies")
      = some (JVal.obj (setKey (setKey m p1 v1) p2 v2)) :=
    findField_setFieldLast _ _ _ hanyA
  have hfB : findField
      (setFieldLast
        (setFieldLast doc (if dev then "devDependencies" else "dependencies")
          (JVal.obj (setKey m p1 v1)))
        (if dev then "devDependencies" else "dependencies")
        (JVal.obj (setKey (setKey m p1 v1) p1 v2)))
      (if dev then "devDependencies" else "dependencies")
      = some (JVal.obj (setKey (setKey m p1 v1) p1 v2)) :=
    findField_setFieldLast _ _ _ hanyA
  have hdepA : depMap (npmRun env (npmRun env st ⟨p1, v1, file, dev⟩).1 ⟨p2, v2, file, dev⟩).1
      file (if dev then "devDependencies" else "dependencies")
      = setKey (setKey m p1 v1) p2 v2 := by
    rw [h2A]
    simp [depMap, lookupA_setAssoc_self, hfA]
  have hdepB : depMap (npmRun env (npmRun env st ⟨p1, v1, file, dev⟩).1 ⟨p1, v2, file, dev⟩).1
      file (if dev then "devDependencies" else "dependencies")
      = setKey (setKey m p1 v1) p1 v2 := by
    rw [h2B]
    simp [depMap, lookupA_setAssoc_self, hfB]
  have hc1 : countK (setKey m p1 v1) p1 = 1 := by
    rw [countK_setKey]
    split
    · rfl
    · omega
  refine ⟨by rw [h1], by rw [h2A], ?_, ?_, by rw [h2B], ?_, ?_⟩
  · rw [hdepA, lookupA_setKey_ne _ _ _ _ hne, lookupA_setKey_self]
  · rw [hdepA, lookupA_setKey_self]
  · rw [hdepB, lookupA_setKey_self]
  · rw [hdepB, countK_setKey, hc1]
    simp

/-- Witness for C4: a `package.json` document with an empty `dependencies`
object, packages `astro`/`react` with explicit versions. -/
theorem c4_npm_last_write_wins_witness :
    (npmRun baseEnv ⟨[], [("package.json", [("dependencies", JVal.obj [])])], [], []⟩
      ⟨"astro", "1.0.0", "package.json", false⟩).2 = none ∧
    (npmRun baseEnv (npmRun baseEnv
        ⟨[], [("package.json", [("dependencies", JVal.obj [])])], [], []⟩
        ⟨"astro", "1.0.0", "package.json", false⟩).1
      ⟨"react", "2.0.0", "package.json", false⟩).2 = none ∧
    lookupA (depMap (npmRun baseEnv (npmRun baseEnv
        ⟨[], [("package.json", [("dependencies", JVal.obj [])])], [], []⟩
        ⟨"astro", "1.0.0", "package.json", false⟩).1
      ⟨"react", "2.0.0", "package.json", false⟩).1 "package.json"
      (if false then "devDependencies" else "dependencies")) "astro" = some "1.0.0" ∧
    lookupA (depMap (npmRun baseEnv (npmRun baseEnv
        ⟨[], [("package.json", [("dependencies", JVal.obj [])])], [], []⟩
        ⟨"astro", "1.0.0", "package.json", false⟩).1
      ⟨"react", "2.0.0", "package.json", false⟩).1 "package.json"
      (if false then "devDependencies" else "dependencies")) "react" = some "2.0.0" ∧
    (npmRun baseEnv (npmRun baseEnv
        ⟨[], [("package.json", [("dependencies", JVal.obj [])])], [], []⟩
        ⟨"astro", "1.0.0", "package.json", false⟩).1
      ⟨"astro", "2.0.0", "package.json", false⟩).2 = none ∧
    lookupA (depMap (npmRun baseEnv (npmRun baseEnv
        ⟨[], [("package.json", [("dependencies", JVal.obj [])])], [], []⟩
        ⟨"astro", "1.0.0", "package.json", false⟩).1
      ⟨"astro", "2.0.0", "package.json", false⟩).1 "package.json"
      (if false then "devDependencies" else "dependencies")) "astro" = some "2.0.0" ∧
    countK (depMap (npmRun baseEnv (npmRun baseEnv
        ⟨[], [("package.json", [("dependencies", JVal.obj [])])], [], []⟩
        ⟨"astro", "1.0.0", "package.json", false⟩).1
      ⟨"astro", "2.0.0", "package.json", false⟩).1 "package.json"
      (if false then "devDependencies" else "dependencies")) "astro" = 1 :=
  c4_npm_last_write_wins baseEnv ⟨[], [("package.json", [("dependencies", JVal.obj [])])], [], []⟩
    "package.json" false "astro" "react" "1.0.0" "2.0.0"
    [("dependencies", JVal.obj [])] [] (by decide) (by decide) (by decide) (by decide)
    (by decide) (by decide)

/-- **C5 counterexample**: with a zero-step preset and no pre-existing
ignore file, `Create` succeeds and writes the default section exactly once
— but the written content is `"\n# sst\n.sst\n"`: the unconditional
leading newline of create.go line 285 puts a blank line *before* the
header even though the file started empty, refuting "no extra blank line
precedes the header line". -/
theorem c5_leading_blank_line_counterexample :
    (Create baseEnv []).result = none ∧
    lookupA (Create baseEnv []).fs ".gitignore" = some ("\n" ++ "# sst\n.sst\n") ∧
    strStartsWith ("\n" ++ "# sst\n.sst\n") "# sst" = false ∧
    ("\n" ++ "# sst\n.sst\n").data.head? = some '\n' := by
  refine ⟨by decide, by decide, by decide, by decide⟩

/-- **C5 (amended)**: for a zero-step preset (marker absent, `Getwd`
succeeding, no pre-existing ignore file, ignore-file syscalls succeeding),
`Create` succeeds and the only write is the default `"# sst"`/`".sst"`
section, written exactly once — always preceded by a single newline, so an
initially empty ignore file ends up with one blank line before the header:
final content `"\n" ++ "# sst\n.sst\n"`, and no other file is touched. -/
theorem c5_zero_step_default_section (env : Env) (fs0 : Fs) (pb : String)
    (hmark : lookupA fs0 "sst.config.ts" = none)
    (hcwd : env.cwdOk = true)
    (hpb : lookupA env.templates ("templates/" ++ env.templateName ++ "/preset.json")
      = some pb)
    (hdec : env.decodePreset pb = some [])
    (hgi : lookupA fs0 ".gitignore" = none)
    (hcf : env.createFails ".gitignore" = false)
    (hwf : env.writeFails ".gitignore" = false) :
    Create env fs0 = ⟨none, setAssoc fs0 ".gitignore" ("\n" ++ "# sst\n.sst\n"),
      [Event.writeIgnore ".sst"]⟩ := by
  have hloop := ignoreLoop_spec env "" hwf [⟨"# sst", ".sst"⟩]
    ⟨setAssoc fs0 ".gitignore" "", [], [⟨"# sst", ".sst"⟩], []⟩ ""
    (lookupA_setAssoc_self _ _ _)
  have hA : ("" : String) ++ ignoreAppend "" [⟨"# sst", ".sst"⟩] = "\n" ++ "# sst\n.sst\n" := by
    decide
  have hT : (([⟨"# sst", ".sst"⟩] : List GitignoreStep).filter
      (fun g => !strContains "" g.path)).map (fun g => Event.writeIgnore g.path)
      = [Event.writeIgnore ".sst"] := by decide
  unfold Create
  simp only [hmark, Option.isSome_none, Bool.false_eq_true, if_false, hcwd,
    Bool.not_true, hpb, hdec]
  unfold runSteps configFlush configLoop ignoreFlush
  simp only [hcf, Bool.false_eq_true, if_false, hgi, Option.getD_none]
  rw [hloop]
  rw [hA, hT] at *
  simp [setAssoc_setAssoc, hA, hT]

/-- Witness for C5's amended theorem at the concrete base environment. -/
theorem c5_zero_step_default_section_witness :
    Create baseEnv [] = ⟨none, setAssoc [] ".gitignore" ("\n" ++ "# sst\n.sst\n"),
      [Event.writeIgnore ".sst"]⟩ :=
  c5_zero_step_default_section baseEnv [] "PB" (by decide) (by decide) (by decide)
    (by decide) (by decide) (by decide) (by decide)

/-- Any complete `Create` run's trace splits into step-phase events, then
config-flush writes, then ignore-flush writes: the phases never
interleave. -/
theorem create_trace_decomp (env : Env) (fs0 : Fs) :
    ∃ t1 t2 t3, (Create env fs0).trace = t1 ++ t2 ++ t3 ∧
      t1.all evtStep = true ∧ t2.all evtConfig = true ∧ t3.all evtIgnore = true := by
  unfold Create
  dsimp only
  split
  · exact ⟨[], [], [], rfl, rfl, rfl, rfl⟩
  · split
    · exact ⟨[], [], [], rfl, rfl, rfl, rfl⟩
    · split
      · exact ⟨[], [], [], rfl, rfl, rfl, rfl⟩
      · split
        · exact ⟨[], [], [], rfl, rfl, rfl, rfl⟩
        next steps heq2 =>
          rcases hrs : runSteps env (strToLower (baseName env.cwd))
              ⟨fs0, [], [⟨"# sst", ".sst"⟩], []⟩ steps with ⟨st1, r1⟩
          have h1 : TraceExt ⟨fs0, [], [⟨"# sst", ".sst"⟩], []⟩ (st1, r1) evtStep :=
            hrs ▸ runSteps_trace env _ steps _
          obtain ⟨es1, he1, hp1⟩ := h1
          simp only at he1
          rw [List.nil_append] at he1
          cases r1 with
          | some e => exact ⟨es1, [], [], by simp [he1], hp1, rfl, rfl⟩
          | none =>
            rcases hcf2 : configFlush env st1 with ⟨st2, r2⟩
            have h2 : TraceExt st1 (st2, r2) evtConfig := hcf2 ▸ configFlush_trace env st1
            obtain ⟨es2, he2, hp2⟩ := h2
            simp only at he2
            cases r2 with
            | some e => exact ⟨es1, es2, [], by simp [hcf2, he2, he1], hp1, hp2, rfl⟩
            | none =>
              rcases hif : ignoreFlush env st2 with ⟨st3, r3⟩
              have h3 : TraceExt st2 (st3, r3) evtIgnore := hif ▸ ignoreFlush_trace env st2
              obtain ⟨es3, he3, hp3⟩ := h3
              simp only at he3
              exact ⟨es1, es2, es3, by simp [hcf2, hif, he3, he2, he1], hp1, hp2, hp3⟩

/-- **C7**: in every successful run the trace decomposes as
(all step executions) ++ (all config-document flush writes) ++ (all
ignore-file flush writes): both flush phases happen only after every step,
and every config write precedes every ignore write. -/
theorem c7_config_flush_before_ignore_flush (env : Env) (fs0 : Fs)
    (h : (Create env fs0).result = none) :
    ∃ t1 t2 t3, (Create env fs0).trace = t1 ++ t2 ++ t3 ∧
      t1.all evtStep = true ∧ t2.all evtConfig = true ∧ t3.all evtIgnore = true :=
  create_trace_decomp env fs0

/-- The environment of C7's witness: a preset with a single gitignore
step. -/
def envIgnoreOnly : Env :=
  { baseEnv with decodePreset := fun _ => some [⟨"gitignore", Props.gitignoreP ⟨"# deps", "node_modules"⟩⟩] }

/-- Witness for C7 at a successful concrete run (one gitignore step:
the trace is one step event followed by two ignore writes). -/
theorem c7_config_flush_before_ignore_flush_witness :
    ∃ t1 t2 t3,
      (Create envIgnoreOnly []).trace = t1 ++ t2 ++ t3 ∧
      t1.all evtStep = true ∧ t2.all evtConfig = true ∧ t3.all evtIgnore = true :=
  c7_config_flush_before_ignore_flush envIgnoreOnly [] (by decide)

end Ion
